import Mathlib

/-!
Verification of the credential-management core of the CST1510-CSW2
repository: password hashing (bcrypt, modelled from the specification as
an external library), credential validation, a SQLite-backed user store,
registration/authentication, and the idempotent seed-admin bootstrap.

The embedding mirrors `app/data/users.py`, `app/data/db.py` and the
register/login handler in `pages/1_Login.py`.  Machine-level details of
bcrypt are not in the repository; the hasher is modelled from the spec:
a salted, self-describing hash string embedding the salt and a digest,
verified by recomputing the digest with the embedded salt.
-/

namespace CSW2

/-! ### Little-endian decimal digit rendering and parsing

Used by the modelled hash format.  `toDigitsLE` renders a natural number
as its base-10 digits, least significant first; `parseNatLE` reads them
back.  Fuel-based recursion keeps the function kernel-reducible. -/

def toDigitsAux : Nat → Nat → List Nat
  | _, 0 => []
  | 0, _ + 1 => []
  | f + 1, n + 1 => ((n + 1) % 10) :: toDigitsAux f ((n + 1) / 10)

def toDigitsLE (n : Nat) : List Nat := toDigitsAux n n

def digitChar (d : Nat) : Char := Char.ofNat (d + 48)

/-- Decimal digit characters of `n`, least significant first. -/
def natChars (n : Nat) : List Char := (toDigitsLE n).map digitChar

def parseNatLE : List Char → Option Nat
  | [] => some 0
  | c :: rest =>
    if c.isDigit then (parseNatLE rest).map (fun a => (c.toNat - 48) + 10 * a)
    else none

theorem digitChar_spec : ∀ d, d < 10 →
    (digitChar d).isDigit = true ∧ (digitChar d).toNat = d + 48 ∧ digitChar d ≠ '$' := by
  decide

theorem toDigitsAux_lt (f : Nat) : ∀ n, ∀ d ∈ toDigitsAux f n, d < 10 := by
  induction f with
  | zero => intro n d hd; cases n <;> simp [toDigitsAux] at hd
  | succ f ih =>
    intro n d hd
    cases n with
    | zero => simp [toDigitsAux] at hd
    | succ m =>
      simp only [toDigitsAux, List.mem_cons] at hd
      rcases hd with h | h
      · subst h; exact Nat.mod_lt _ (by omega)
      · exact ih _ _ h

theorem toDigitsLE_lt (n : Nat) : ∀ d ∈ toDigitsLE n, d < 10 :=
  toDigitsAux_lt n n

theorem parse_toDigitsAux (f : Nat) : ∀ n, n ≤ f →
    parseNatLE ((toDigitsAux f n).map digitChar) = some n := by
  induction f with
  | zero =>
    intro n hn
    interval_cases n
    simp [toDigitsAux, parseNatLE]
  | succ f ih =>
    intro n hn
    cases n with
    | zero => simp [toDigitsAux, parseNatLE]
    | succ m =>
      have hd : (m + 1) % 10 < 10 := Nat.mod_lt _ (by omega)
      obtain ⟨hdig, htn, -⟩ := digitChar_spec _ hd
      have hle : (m + 1) / 10 ≤ f := by
        have h2 : (m + 1) / 10 < m + 1 := Nat.div_lt_self (by omega) (by omega)
        omega
      have hrec := ih _ hle
      have hstep : toDigitsAux (f + 1) (m + 1)
          = ((m + 1) % 10) :: toDigitsAux f ((m + 1) / 10) := rfl
      rw [hstep, List.map_cons]
      simp only [parseNatLE]
      rw [if_pos hdig, hrec]
      show some ((digitChar ((m + 1) % 10)).toNat - 48 + 10 * ((m + 1) / 10)) = some (m + 1)
      rw [htn]
      have hmod : (m + 1) % 10 + 48 - 48 + 10 * ((m + 1) / 10) = m + 1 := by omega
      rw [hmod]

theorem parse_natChars (n : Nat) : parseNatLE (natChars n) = some n :=
  parse_toDigitsAux n n le_rfl

theorem natChars_ne_dollar (n : Nat) : ∀ c ∈ natChars n, c ≠ '$' := by
  intro c hc
  simp only [natChars, List.mem_map] at hc
  obtain ⟨d, hd, rfl⟩ := hc
  exact (digitChar_spec d (toDigitsLE_lt n d hd)).2.2

/-! ### Splitting a character list on a separator

List-level model of `str.split(sep)` for a one-character separator; used
both for the `$`-separated hash format and the `,`-separated legacy
mirror lines. -/

def splitOnChar (sep : Char) : List Char → List (List Char)
  | [] => [[]]
  | c :: rest =>
    if c = sep then [] :: splitOnChar sep rest
    else
      match splitOnChar sep rest with
      | [] => [[c]]
      | g :: gs => (c :: g) :: gs

theorem splitOnChar_ne_nil (sep : Char) : ∀ l, splitOnChar sep l ≠ [] := by
  intro l
  induction l with
  | nil => simp [splitOnChar]
  | cons c rest ih =>
    simp only [splitOnChar]
    split
    · simp
    · split
      · simp
      · simp

theorem splitOnChar_cons_sep (sep : Char) (l : List Char) :
    splitOnChar sep (sep :: l) = [] :: splitOnChar sep l := by
  simp [splitOnChar]

theorem splitOnChar_cons_ne (sep c : Char) (l : List Char) (hc : c ≠ sep) :
    splitOnChar sep (c :: l) =
      ((c :: (splitOnChar sep l).headI) :: (splitOnChar sep l).tail) := by
  simp only [splitOnChar, if_neg hc]
  rcases h : splitOnChar sep l with _ | ⟨g, gs⟩
  · exact absurd h (splitOnChar_ne_nil sep l)
  · simp [List.headI]

theorem splitOnChar_append (sep : Char) (l rest : List Char)
    (hl : ∀ c ∈ l, c ≠ sep) :
    splitOnChar sep (l ++ sep :: rest) = l :: splitOnChar sep rest := by
  induction l with
  | nil => simpa using splitOnChar_cons_sep sep rest
  | cons c l ih =>
    have hc : c ≠ sep := hl c (by simp)
    have ih2 := ih (fun x hx => hl x (by simp [hx]))
    rw [List.cons_append, splitOnChar_cons_ne sep c _ hc, ih2]
    simp [List.headI]

theorem splitOnChar_no_sep (sep : Char) (l : List Char)
    (hl : ∀ c ∈ l, c ≠ sep) :
    splitOnChar sep l = [l] := by
  induction l with
  | nil => simp [splitOnChar]
  | cons c l ih =>
    have hc : c ≠ sep := hl c (by simp)
    have ih2 := ih (fun x hx => hl x (by simp [hx]))
    rw [splitOnChar_cons_ne sep c _ hc, ih2]
    simp [List.headI]

/-! ### Injective encoding of strings as naturals

Positional base-`2^21` encoding of the character list; `2^21` exceeds
every Unicode scalar value, so the encoding is injective.  This plays
the role of the ideal collision-free digest inside the modelled
bcrypt. -/

def encBase : Nat := 2097152

def strEncode (s : String) : Nat :=
  s.data.foldr (fun c a => (c.toNat + 1) + encBase * a) 0

theorem char_toNat_lt (c : Char) : c.toNat < 1114112 := by
  have h := c.valid
  rcases h with h | ⟨_, h⟩
  · calc c.toNat < 0xd800 := h
      _ < 1114112 := by norm_num
  · exact h

theorem encStep_lt (c : Char) : c.toNat + 1 < encBase := by
  have := char_toNat_lt c
  simp only [encBase]
  omega

theorem posEnc_inj (B x y a b : Nat) (hB : 0 < B) (hx : x < B) (hy : y < B)
    (h : x + B * a = y + B * b) : x = y ∧ a = b := by
  have h1 : (x + B * a) % B = x := by
    rw [Nat.add_mul_mod_self_left, Nat.mod_eq_of_lt hx]
  have h2 : (y + B * b) % B = y := by
    rw [Nat.add_mul_mod_self_left, Nat.mod_eq_of_lt hy]
  have h3 : (x + B * a) / B = a := by
    rw [Nat.add_mul_div_left _ _ hB, Nat.div_eq_of_lt hx, Nat.zero_add]
  have h4 : (y + B * b) / B = b := by
    rw [Nat.add_mul_div_left _ _ hB, Nat.div_eq_of_lt hy, Nat.zero_add]
  rw [h] at h1 h3
  exact ⟨h1.symm.trans h2, h3.symm.trans h4⟩

theorem char_toNat_injective {c d : Char} (h : c.toNat = d.toNat) : c = d :=
  Char.eq_of_val_eq (congrArg UInt32.mk (BitVec.eq_of_toNat_eq h))

theorem strEncodeList_injective :
    ∀ l1 l2 : List Char,
      l1.foldr (fun c a => (c.toNat + 1) + encBase * a) 0 =
        l2.foldr (fun c a => (c.toNat + 1) + encBase * a) 0 → l1 = l2 := by
  intro l1
  induction l1 with
  | nil =>
    intro l2 h
    cases l2 with
    | nil => rfl
    | cons c l2 =>
      exfalso
      simp only [List.foldr_nil, List.foldr_cons] at h
      omega
  | cons c l1 ih =>
    intro l2 h
    cases l2 with
    | nil =>
      exfalso
      simp only [List.foldr_nil, List.foldr_cons] at h
      omega
    | cons d l2 =>
      simp only [List.foldr_cons] at h
      have hB : 0 < encBase := by norm_num [encBase]
      obtain ⟨h1, h2⟩ :=
        posEnc_inj encBase (c.toNat + 1) (d.toNat + 1) _ _ hB (encStep_lt c) (encStep_lt d) h
      have hcd : c = d := char_toNat_injective (by omega)
      rw [hcd, ih l2 h2]

theorem strEncode_injective (s t : String) (h : strEncode s = strEncode t) : s = t := by
  have hd := strEncodeList_injective s.data t.data h
  exact congrArg String.mk hd

/-! ### The PasswordHasher, modelled from the spec

bcrypt itself is an external library and is not part of the repository;
following the spec (§4.1), `hash` generates a fresh salt per call (made
explicit here as a parameter), embeds algorithm tag, salt and digest in
a self-describing `$`-separated string, and `verify` re-parses the
stored string, recomputes the digest with the embedded salt and compares
digests, returning `false` — never failing — on malformed input.  The
digest is idealised as collision-free (injective per salt). -/

/-- Modelled from the spec: the bcrypt digest of a password under a
given salt — an ideal collision-free one-way function. -/
def bcryptDigest (salt : Nat) (p : String) : Nat :=
  Nat.pair salt (strEncode p)

/-- Modelled from the spec: `hash_password` (`users.py` line 31,
`auth_functions.py` line 9).  The fresh salt generated by
`bcrypt.gensalt()` is an explicit parameter; the output is a
self-describing string `$2b$<salt>$<digest>`. -/
def hash_password (salt : Nat) (plain_text_password : String) : String :=
  ⟨'$' :: '2' :: 'b' :: '$' ::
    (natChars salt ++ '$' :: natChars (bcryptDigest salt plain_text_password))⟩

/-- Parse a stored hash back into its embedded salt and digest. -/
def parseHash (cs : List Char) : Option (Nat × Nat) :=
  match splitOnChar '$' cs with
  | [[], ['2', 'b'], saltCs, dgCs] =>
    match parseNatLE saltCs, parseNatLE dgCs with
    | some s, some d => some (s, d)
    | _, _ => none
  | _ => none

/-- Modelled from the spec: `verify_password` (`users.py` line 39,
`auth_functions.py` line 17) — recompute with the embedded salt and
compare digests; `false` on any mismatch or malformed hash. -/
def verify_password (plain_text_password : String) (stored_hash : String) : Bool :=
  match parseHash stored_hash.data with
  | none => false
  | some (salt, dg) => bcryptDigest salt plain_text_password == dg

theorem parseHash_hash_password (salt : Nat) (p : String) :
    parseHash (hash_password salt p).data = some (salt, bcryptDigest salt p) := by
  have hsplit : splitOnChar '$' (hash_password salt p).data
      = [[], ['2', 'b'], natChars salt, natChars (bcryptDigest salt p)] := by
    show splitOnChar '$' ('$' :: '2' :: 'b' :: '$' ::
      (natChars salt ++ '$' :: natChars (bcryptDigest salt p))) = _
    rw [splitOnChar_cons_sep]
    have h2b : splitOnChar '$' ('2' :: 'b' :: '$' ::
        (natChars salt ++ '$' :: natChars (bcryptDigest salt p)))
        = ['2', 'b'] :: splitOnChar '$' (natChars salt ++ '$' ::
            natChars (bcryptDigest salt p)) := by
      have := splitOnChar_append '$' ['2', 'b']
        (natChars salt ++ '$' :: natChars (bcryptDigest salt p)) (by decide)
      simpa using this
    rw [h2b, splitOnChar_append '$' _ _ (natChars_ne_dollar salt),
      splitOnChar_no_sep '$' _ (natChars_ne_dollar _)]
  simp only [parseHash, hsplit, parse_natChars]

theorem verify_hash_self (salt : Nat) (p : String) :
    verify_password p (hash_password salt p) = true := by
  simp [verify_password, parseHash_hash_password]

theorem verify_hash_other (salt : Nat) (p p2 : String) (hne : p ≠ p2) :
    verify_password p (hash_password salt p2) = false := by
  simp only [verify_password, parseHash_hash_password]
  simp only [beq_eq_false_iff_ne, ne_eq]
  intro h
  apply hne
  have := (Nat.pair_eq_pair.mp h).2
  exact strEncode_injective _ _ this

theorem verify_true_iff (p s : String) :
    verify_password p s = true ↔
      ∃ salt, parseHash s.data = some (salt, bcryptDigest salt p) := by
  constructor
  · intro h
    unfold verify_password at h
    rcases hp : parseHash s.data with _ | ⟨salt, dg⟩
    · rw [hp] at h; exact absurd h (by simp)
    · rw [hp] at h
      simp only [beq_iff_eq] at h
      exact ⟨salt, by rw [h]⟩
  · rintro ⟨salt, hp⟩
    simp [verify_password, hp]

/-! ### Python string helpers

`pyStrip` models `str.strip()` (drop leading and trailing whitespace),
`pyLower` models `str.lower()`.  ASCII character classes (`Char.isDigit`,
`Char.isAlpha`, `Char.isAlphanum`) model Python's `isdigit`/`isalpha`/
`isalnum`; the repository only feeds them ASCII policy characters. -/

def stripChars (cs : List Char) : List Char :=
  (cs.dropWhile Char.isWhitespace).rdropWhile Char.isWhitespace

def pyStrip (s : String) : String := ⟨stripChars s.data⟩

def pyLower (s : String) : String := ⟨s.data.map Char.toLower⟩

theorem head?_rdropWhile (p : α → Bool) (l : List α) (h : l.rdropWhile p ≠ []) :
    (l.rdropWhile p).head? = l.head? := by
  induction l using List.reverseRecOn with
  | nil => simp at h
  | append_singleton xs x ih =>
    by_cases hx : p x
    · rw [List.rdropWhile_concat_pos _ _ _ hx] at h ⊢
      have hxs : xs ≠ [] := by
        intro hnil
        rw [hnil] at h
        simp at h
      rw [ih h]
      cases xs with
      | nil => exact absurd rfl hxs
      | cons a as => simp
    · rw [List.rdropWhile_concat_neg _ _ _ hx]

theorem stripChars_idempotent (cs : List Char) :
    stripChars (stripChars cs) = stripChars cs := by
  by_cases hnil : stripChars cs = []
  · rw [hnil]
    rfl
  · set m := cs.dropWhile Char.isWhitespace with hm
    have hr : stripChars cs = m.rdropWhile Char.isWhitespace := rfl
    rw [hr] at hnil ⊢
    have hdw : (m.rdropWhile Char.isWhitespace).dropWhile Char.isWhitespace
        = m.rdropWhile Char.isWhitespace := by
      rw [List.dropWhile_eq_self_iff]
      intro hl hp
      have hh : (m.rdropWhile Char.isWhitespace).head? = m.head? :=
        head?_rdropWhile _ _ hnil
      have hmne : m ≠ [] := by
        intro h0
        rw [h0] at hnil
        simp at hnil
      have hmd : m.dropWhile Char.isWhitespace = m := List.dropWhile_idempotent _ _
      have hhead : ¬ Char.isWhitespace (m.head hmne) := by
        have := List.head_dropWhile_not Char.isWhitespace cs
          (by rw [← hm] at *; exact hmne)
        simpa [← hm] using this
      have hget : (m.rdropWhile Char.isWhitespace).get ⟨0, hl⟩ = m.head hmne := by
        have h1 : (m.rdropWhile Char.isWhitespace).head? =
            some ((m.rdropWhile Char.isWhitespace).get ⟨0, hl⟩) := by
          rw [List.head?_eq_getElem?]
          simp [List.getElem?_eq_getElem hl]
        have h2 : m.head? = some (m.head hmne) := List.head?_eq_head _
        rw [hh, h2] at h1
        exact (Option.some_injective _ h1).symm
      rw [hget] at hp
      exact hhead hp
    show (((m.rdropWhile Char.isWhitespace).dropWhile Char.isWhitespace).rdropWhile
      Char.isWhitespace) = m.rdropWhile Char.isWhitespace
    rw [hdw, List.rdropWhile_idempotent]

theorem pyStrip_idempotent (s : String) : pyStrip (pyStrip s) = pyStrip s :=
  congrArg String.mk (stripChars_idempotent s.data)

theorem whitespace_not_digit : ∀ c : Char, c.isWhitespace = true → c.isDigit = false := by
  intro c h
  simp only [Char.isWhitespace, Bool.or_eq_true, decide_eq_true_eq] at h
  rcases h with ((h | h) | h) | h <;> subst h <;> decide

/-! ### CredentialValidator (`users.py` lines 48–86, Variant B) -/

def isWordChar (c : Char) : Bool := c.isAlphanum || c = '_'

/-- Model of `re.fullmatch(r"[A-Za-z0-9_]+", u)` being a match. -/
def fullmatchWord (cs : List Char) : Bool := !cs.isEmpty && cs.all isWordChar

def validate_username (username : String) : Bool × String :=
  let u := pyStrip username
  if u.length < 2 then (false, "Username must be at least 2 characters.")
  else if u.data.contains ' ' then (false, "Username cannot contain spaces.")
  else if !(fullmatchWord u.data) then
    (false, "Username can only contain letters, numbers, and underscore (_).")
  else (true, "OK")

def validate_password (password : String) : Bool × String :=
  if password.length < 5 then (false, "Password must be at least 5 characters.")
  else if !(password.data.any Char.isDigit) then
    (false, "Password must contain at least 1 number.")
  else if !(password.data.any Char.isAlpha) then
    (false, "Password must contain at least 1 letter.")
  else if !(password.data.any (fun ch => !ch.isAlphanum)) then
    (false, "Password must contain at least 1 special character (e.g., @, #, !).")
  else (true, "OK")

/-- The username validator as the spec's policy table orders the rules
(minimum length, then charset, then spaces) — written from the spec's
words, to compare with the code's check order. -/
def validate_username_specOrder (username : String) : Bool × String :=
  let u := pyStrip username
  if u.length < 2 then (false, "Username must be at least 2 characters.")
  else if !(fullmatchWord u.data) then
    (false, "Username can only contain letters, numbers, and underscore (_).")
  else if u.data.contains ' ' then (false, "Username cannot contain spaces.")
  else (true, "OK")

/-! ### CredentialValidator, earlier evolution
(`auth_functions.py` lines 77–102, Variant A) -/

def cw2_validate_username (username : String) : Bool × String :=
  if username.length < 3 then (false, "Username must be at least 3 characters long.")
  else if username.data.contains ' ' then (false, "Username cannot contain spaces.")
  else if !(!username.data.isEmpty && username.data.all Char.isAlphanum) then
    (false, "Username can only contain letters and numbers.")
  else (true, "")

def cw2_validate_password (password : String) : Bool × String :=
  if password.length < 6 then (false, "Password must be at least 6 characters long.")
  else if !(password.data.any Char.isDigit) then
    (false, "Password must contain at least one number.")
  else if !(password.data.any Char.isAlpha) then
    (false, "Password must contain at least one letter.")
  else (true, "")

/-! ### UserStore and AuthService (`app/data/users.py`, `app/data/db.py`)

The SQLite `users` table (`db.py` lines 36–45: `id INTEGER PRIMARY KEY
AUTOINCREMENT, username TEXT NOT NULL UNIQUE, password_hash TEXT NOT
NULL, role TEXT DEFAULT 'analyst'`) is modelled as a list of rows plus
the autoincrement counter; the unique constraint surfaces as the
`Except.error` of an insert, matching the uncaught
`sqlite3.IntegrityError`.  `create_tables()` is idempotent schema
creation and a no-op on this model.  The legacy mirror `users.txt` is a
list of text lines. -/

structure UserRow where
  id : Nat
  username : String
  password_hash : String
  role : String
deriving DecidableEq

structure DB where
  rows : List UserRow
  nextId : Nat
deriving DecidableEq

structure AppState where
  db : DB
  mirror : List String
deriving DecidableEq

def SEED_ADMIN_USERNAME : String := "JaysonF"

def SEED_ADMIN_PASSWORD : String := "Jayson@2008"

def SEED_ADMIN_ROLE : String := "admin"

/-- `get_user_by_username` (`users.py` lines 91–107): strip, return
`None` on an empty username, else the row found by exact match. -/
def get_user_by_username (db : DB) (username : String) : Option UserRow :=
  let u := pyStrip username
  if u = "" then none
  else db.rows.find? (fun r => r.username == u)

/-- A parameterized `INSERT INTO users` under the `UNIQUE` constraint on
`username`: error models the uncaught `sqlite3.IntegrityError`. -/
def sqliteInsertUser (db : DB) (u h r : String) : Except Unit DB :=
  if db.rows.any (fun row => row.username == u) then Except.error ()
  else Except.ok ⟨db.rows ++ [⟨db.nextId, u, h, r⟩], db.nextId + 1⟩

/-- Role normalization in `register_user` (`users.py` lines 212–215). -/
def normalizeRole (role : String) : String :=
  let r := pyLower (pyStrip (if role = "" then "analyst" else role))
  if r = "analyst" ∨ r = "admin" then r else "analyst"

/-- `register_user` (`users.py` lines 203–237).  The fresh bcrypt salt
is an explicit parameter. -/
def register_user (salt : Nat) (st : AppState) (username password role : String) :
    Except Unit (Bool × AppState) :=
  let u := pyStrip username
  let r := normalizeRole role
  match get_user_by_username st.db u with
  | some _ => Except.ok (false, st)
  | none =>
    let pw_hash := hash_password salt password
    match sqliteInsertUser st.db u pw_hash r with
    | Except.error e => Except.error e
    | Except.ok db2 =>
      Except.ok (true, ⟨db2, st.mirror ++ [u ++ "," ++ pw_hash ++ "," ++ r]⟩)

/-- `authenticate_user` (`users.py` lines 110–127). -/
def authenticate_user (st : AppState) (username password : String) : Bool × Option String :=
  let u := pyStrip username
  match get_user_by_username st.db u with
  | none => (false, none)
  | some row =>
    if verify_password password row.password_hash then (true, some row.role)
    else (false, none)

/-- `login_user` (`users.py` lines 130–133). -/
def login_user (st : AppState) (username password : String) : Bool :=
  (authenticate_user st username password).1

/-- `is_admin_credentials` (`users.py` lines 136–139). -/
def is_admin_credentials (st : AppState) (username password : String) : Bool :=
  match authenticate_user st username password with
  | (ok, role) => ok && (role == some "admin")

/-! ### SeedBootstrap (`users.py` lines 142–200) -/

/-- First comma-separated field of a mirror line, stripped — the
comparison done per line by `_userfile_has_username`. -/
def firstField (line : String) : String :=
  match splitOnChar ',' line.data with
  | [] => ""
  | f :: _ => ⟨stripChars f⟩

/-- `_userfile_has_username` (`users.py` lines 142–155). -/
def userfile_has_username (mirror : List String) (username : String) : Bool :=
  mirror.any (fun line => firstField line == username)

def seedMirrorLine (pw_hash : String) : String :=
  SEED_ADMIN_USERNAME ++ "," ++ pw_hash ++ "," ++ SEED_ADMIN_ROLE

/-- The `UPDATE users SET password_hash = ?, role = ? WHERE username = ?`
of `ensure_seed_admin`. -/
def updateUserRows (db : DB) (username pw_hash role : String) : DB :=
  ⟨db.rows.map (fun r =>
      if r.username = username then { r with password_hash := pw_hash, role := role } else r),
    db.nextId⟩

/-- `ensure_seed_admin` (`users.py` lines 158–200).  The insert under
the `existing is None` guard cannot hit the unique constraint, so it is
modelled as a plain append. -/
def ensure_seed_admin (salt : Nat) (st : AppState) : AppState :=
  let desired_hash := hash_password salt SEED_ADMIN_PASSWORD
  let db2 :=
    match get_user_by_username st.db SEED_ADMIN_USERNAME with
    | none =>
      ⟨st.db.rows ++ [⟨st.db.nextId, SEED_ADMIN_USERNAME, desired_hash, SEED_ADMIN_ROLE⟩],
        st.db.nextId + 1⟩
    | some _ => updateUserRows st.db SEED_ADMIN_USERNAME desired_hash SEED_ADMIN_ROLE
  let mirror2 :=
    if userfile_has_username st.mirror SEED_ADMIN_USERNAME then st.mirror
    else
      match get_user_by_username db2 SEED_ADMIN_USERNAME with
      | none => st.mirror
      | some row => st.mirror ++ [seedMirrorLine row.password_hash]
  ⟨db2, mirror2⟩

/-- `ensure_seed_admin` called once per salt in the list. -/
def ensureSeedIter : List Nat → AppState → AppState
  | [], st => st
  | salt :: rest, st => ensureSeedIter rest (ensure_seed_admin salt st)

/-! ### The register flow of the UI layer (`pages/1_Login.py` lines 87–110)

Validation is performed by the page handler before `register_user` is
invoked; this composite is the spec's `AuthService.register`. -/

inductive RegisterOutcome where
  | fieldsMissing
  | invalidUsername (reason : String)
  | invalidPassword (reason : String)
  | passwordMismatch
  | adminDenied
  | duplicate
  | created (role : String)
  | storeFailure
deriving DecidableEq

def registerFlow (salt : Nat) (st : AppState) (username password confirm : String)
    (registerAsAdmin adminOk : Bool) : RegisterOutcome × AppState :=
  if username = "" ∨ password = "" ∨ confirm = "" then (.fieldsMissing, st)
  else
    match validate_username username with
    | (false, msg) => (.invalidUsername msg, st)
    | (true, _) =>
      match validate_password password with
      | (false, msg) => (.invalidPassword msg, st)
      | (true, _) =>
        if password ≠ confirm then (.passwordMismatch, st)
        else
          let role := if registerAsAdmin then "admin" else "analyst"
          if registerAsAdmin = true ∧ adminOk = false then (.adminDenied, st)
          else
            match register_user salt st username password role with
            | Except.ok (true, st2) => (.created role, st2)
            | Except.ok (false, _) => (.duplicate, st)
            | Except.error _ => (.storeFailure, st)

/-! ### Supporting lemmas -/

theorem get_user_strip (db : DB) (u : String) :
    get_user_by_username db (pyStrip u) = get_user_by_username db u := by
  unfold get_user_by_username
  rw [pyStrip_idempotent]

theorem validate_username_strip_ne (u : String)
    (h : (validate_username u).1 = true) : pyStrip u ≠ "" := by
  intro h0
  unfold validate_username at h
  rw [h0] at h
  simp at h

theorem pyStrip_empty : pyStrip "" = "" := by decide

/-- A lookup miss on a nonempty stripped username means no row carries
that username. -/
theorem get_user_none_no_row (db : DB) (u : String) (hne : pyStrip u ≠ "")
    (h : get_user_by_username db u = none) :
    ∀ r ∈ db.rows, (r.username == pyStrip u) = false := by
  unfold get_user_by_username at h
  rw [if_neg hne] at h
  intro r hr
  have := List.find?_eq_none.mp h r hr
  simpa using this

/-- The reference state used by concrete instantiations: a fresh store. -/
def stEmpty : AppState := ⟨⟨[], 1⟩, []⟩

/-! ### C1 -/

/-- C1: for every salt and plaintext `p`, `verify(p, hash(p))` is true,
and for distinct plaintexts `p ≠ p2`, `verify(p, hash(p2))` is false —
`hash_password` followed by `verify_password` round-trips (the hasher of
both evolutions delegates to the same modelled bcrypt). -/
theorem hash_verify_roundtrip :
    (∀ salt p, verify_password p (hash_password salt p) = true) ∧
    (∀ salt p p2, p ≠ p2 → verify_password p (hash_password salt p2) = false) :=
  ⟨fun salt p => verify_hash_self salt p,
   fun salt p p2 h => verify_hash_other salt p p2 h⟩

theorem hash_verify_roundtrip_witness :
    verify_password "a" (hash_password 0 "a") = true ∧
    verify_password "a" (hash_password 0 "b") = false :=
  ⟨hash_verify_roundtrip.1 0 "a",
   hash_verify_roundtrip.2 0 "a" "b" (by decide)⟩

/-! ### C2 -/

/-- C2: `verify_password` is a total Boolean function (hence never
raises in the model); it returns true only when the stored string parses
as a well-formed hash whose embedded digest matches the recomputed one,
and therefore returns false on every malformed hash and every wrong
plaintext. -/
theorem verify_never_throws :
    (∀ p s, verify_password p s = true ↔
      ∃ salt, parseHash s.data = some (salt, bcryptDigest salt p)) ∧
    (∀ p s, parseHash s.data = none → verify_password p s = false) ∧
    (∀ p salt p2, p ≠ p2 → verify_password p (hash_password salt p2) = false) := by
  refine ⟨verify_true_iff, ?_, fun p salt p2 h => verify_hash_other salt p p2 h⟩
  intro p s h
  unfold verify_password
  rw [h]

theorem verify_never_throws_witness :
    verify_password "a" "not-a-wellformed-hash" = false ∧
    verify_password "a" (hash_password 1 "b") = false :=
  ⟨verify_never_throws.2.1 "a" "not-a-wellformed-hash" (by decide),
   verify_never_throws.2.2 "a" 1 "b" (by decide)⟩

/-! ### C3 -/

/-- C3: `authenticate_user` returns the constant `(false, none)` unless
the lookup finds a row whose stored hash verifies the given password; in
particular a registered username with a wrong password and an
unregistered username produce the identical value `(false, none)` — the
return shape reveals nothing about whether the username exists. -/
theorem authenticate_no_username_leak :
    ∀ st u w, authenticate_user st u w = (false, none) ∨
      ∃ row, get_user_by_username st.db u = some row ∧
        verify_password w row.password_hash = true ∧
        authenticate_user st u w = (true, some row.role) := by
  intro st u w
  simp only [authenticate_user]
  rw [get_user_strip]
  rcases h : get_user_by_username st.db u with _ | row
  · exact Or.inl rfl
  · by_cases hv : verify_password w row.password_hash = true
    · exact Or.inr ⟨row, rfl, hv, by simp [hv]⟩
    · exact Or.inl (by simp [hv])

/-! ### C4 -/

/-- The state reached by registering the empty username once on a fresh
store — reachable because `get_user_by_username` returns `None` for an
empty username, so the duplicate pre-check never sees it. -/
def emptyUserState : AppState :=
  ⟨⟨[⟨1, "", hash_password 0 "a1!", "analyst"⟩], 2⟩,
    ["," ++ hash_password 0 "a1!" ++ ",analyst"]⟩

/-- C4 (failing-input evaluation): with the empty username already
registered, a second `register_user` for the same username does not
return the `False` duplicate outcome — it hits the `UNIQUE` constraint
and raises (`Except.error`, the uncaught `sqlite3.IntegrityError`),
contradicting the function's own docstring "False if username already
exists". -/
theorem register_duplicate_empty_username_raises :
    register_user 0 stEmpty "" "a1!" "analyst" = Except.ok (true, emptyUserState) ∧
    (∃ row ∈ emptyUserState.db.rows, row.username = "") ∧
    register_user 1 emptyUserState "" "b2!" "analyst" = Except.error () := by
  refine ⟨rfl, ⟨⟨1, "", hash_password 0 "a1!", "analyst"⟩, by simp [emptyUserState], rfl⟩, rfl⟩

/-! ### C6 -/

/-- The state produced by a `register_user` call (unchanged state if the
call raised). -/
def registerResultState (salt : Nat) (st : AppState) (u p role : String) : AppState :=
  match register_user salt st u p role with
  | Except.ok (_, st2) => st2
  | Except.error _ => st

theorem normalizeRole_cases (role : String) :
    normalizeRole role = "analyst" ∨ normalizeRole role = "admin" := by
  simp only [normalizeRole]
  set r := pyLower (pyStrip (if role = "" then "analyst" else role)) with hr
  by_cases h : r = "analyst" ∨ r = "admin"
  · rw [if_pos h]
    exact h
  · rw [if_neg h]
    exact Or.inl rfl

theorem register_success (salt : Nat) (st : AppState) (u p role : String)
    (hu : (validate_username u).1 = true)
    (hnone : get_user_by_username st.db u = none) :
    register_user salt st u p role =
      Except.ok (true,
        ⟨⟨st.db.rows ++
            [⟨st.db.nextId, pyStrip u, hash_password salt p, normalizeRole role⟩],
          st.db.nextId + 1⟩,
          st.mirror ++
            [pyStrip u ++ "," ++ hash_password salt p ++ "," ++ normalizeRole role]⟩) := by
  have hne := validate_username_strip_ne u hu
  have hrows := get_user_none_no_row st.db u hne hnone
  have hnone2 : get_user_by_username st.db (pyStrip u) = none := by
    rw [get_user_strip]
    exact hnone
  have hany : st.db.rows.any (fun row => row.username == pyStrip u) = false := by
    rw [List.any_eq_false]
    intro r hr
    simp [hrows r hr]
  simp only [register_user, hnone2, sqliteInsertUser, hany]
  rfl

theorem find?_new_row (rows : List UserRow) (u : String) (row : UserRow)
    (hrows : ∀ r ∈ rows, (r.username == u) = false)
    (hrow : row.username = u) :
    (rows ++ [row]).find? (fun r => r.username == u) = some row := by
  rw [List.find?_append]
  have h1 : rows.find? (fun r => r.username == u) = none := by
    rw [List.find?_eq_none]
    intro r hr
    simp [hrows r hr]
  rw [h1]
  simp [List.find?, hrow]

theorem authenticate_after_register (salt : Nat) (st : AppState) (u p role : String)
    (hu : (validate_username u).1 = true)
    (hnone : get_user_by_username st.db u = none) :
    authenticate_user (registerResultState salt st u p role) u p
      = (true, some (normalizeRole role)) := by
  have hne := validate_username_strip_ne u hu
  have hrows := get_user_none_no_row st.db u hne hnone
  have hreg := register_success salt st u p role hu hnone
  have hstate : registerResultState salt st u p role =
      ⟨⟨st.db.rows ++
          [⟨st.db.nextId, pyStrip u, hash_password salt p, normalizeRole role⟩],
        st.db.nextId + 1⟩,
        st.mirror ++
          [pyStrip u ++ "," ++ hash_password salt p ++ "," ++ normalizeRole role]⟩ := by
    unfold registerResultState
    rw [hreg]
  rw [hstate]
  simp only [authenticate_user]
  rw [get_user_strip]
  unfold get_user_by_username
  rw [if_neg hne]
  rw [find?_new_row _ _ _ hrows rfl]
  simp [verify_hash_self]

/-- C6: for every username/password pair accepted by the validators and
not already registered, `register_user` succeeds, and authenticating the
same credentials on the resulting state returns `(true, r)` where `r` is
the normalized role — which is always one of `analyst`/`admin`, so
registration never fails because of an unrecognized role string. -/
theorem register_then_authenticate :
    ∀ salt st u p role,
      (validate_username u).1 = true →
      (validate_password p).1 = true →
      get_user_by_username st.db u = none →
      register_user salt st u p role
          = Except.ok (true, registerResultState salt st u p role) ∧
      authenticate_user (registerResultState salt st u p role) u p
          = (true, some (normalizeRole role)) ∧
      (normalizeRole role = "analyst" ∨ normalizeRole role = "admin") := by
  intro salt st u p role hu hp hnone
  have hreg := register_success salt st u p role hu hnone
  refine ⟨?_, authenticate_after_register salt st u p role hu hnone,
    normalizeRole_cases role⟩
  have hstate : registerResultState salt st u p role =
      ⟨⟨st.db.rows ++
          [⟨st.db.nextId, pyStrip u, hash_password salt p, normalizeRole role⟩],
        st.db.nextId + 1⟩,
        st.mirror ++
          [pyStrip u ++ "," ++ hash_password salt p ++ "," ++ normalizeRole role]⟩ := by
    unfold registerResultState
    rw [hreg]
  rw [hreg, hstate]

theorem register_then_authenticate_witness :
    register_user 0 stEmpty "alice" "Pass0!" "analyst"
        = Except.ok (true, registerResultState 0 stEmpty "alice" "Pass0!" "analyst") ∧
    authenticate_user (registerResultState 0 stEmpty "alice" "Pass0!" "analyst")
        "alice" "Pass0!" = (true, some (normalizeRole "analyst")) ∧
    (normalizeRole "analyst" = "analyst" ∨ normalizeRole "analyst" = "admin") :=
  register_then_authenticate 0 stEmpty "alice" "Pass0!" "analyst"
    (by decide) (by decide) (by decide)

/-! ### C5 -/

/-- C5 counterexample: on the input username `"ab!"` (which violates the
charset policy) with an empty password, the register flow returns the
generic fill-in-all-fields outcome, not `InvalidUsername` with the
validator's reason — so "for every input, register first validates the
username, returning InvalidUsername if it violates policy" fails on
inputs with an empty field. -/
theorem registerFlow_empty_field_cex :
    (validate_username "ab!").1 = false ∧
    registerFlow 0 stEmpty "ab!" "" "" false true
      = (RegisterOutcome.fieldsMissing, stEmpty) ∧
    registerFlow 0 stEmpty "ab!" "" "" false true
      ≠ (RegisterOutcome.invalidUsername (validate_username "ab!").2, stEmpty) := by
  exact ⟨by decide, by decide, by decide⟩

/-- C5 (amended): for inputs whose username, password and confirmation
fields are all nonempty, the register flow checks the username first
(returning `InvalidUsername` with the validator's reason, store
untouched), then the password (returning `InvalidPassword`, store
untouched), and only later reaches the uniqueness check/insert; and for
every input whatsoever the store state changes only if both validators
accepted the credentials. -/
theorem registerFlow_check_order :
    ∀ salt st u p c a ok,
      ((registerFlow salt st u p c a ok).2 = st ∨
        ((validate_username u).1 = true ∧ (validate_password p).1 = true)) ∧
      (u ≠ "" → p ≠ "" → c ≠ "" →
        ((validate_username u).1 = false →
          registerFlow salt st u p c a ok
            = (RegisterOutcome.invalidUsername (validate_username u).2, st)) ∧
        ((validate_username u).1 = true → (validate_password p).1 = false →
          registerFlow salt st u p c a ok
            = (RegisterOutcome.invalidPassword (validate_password p).2, st))) := by
  intro salt st u p c a ok
  rcases hu : validate_username u with ⟨bu, mu⟩
  rcases hp : validate_password p with ⟨bp, mp⟩
  constructor
  · cases bu with
    | true =>
      cases bp with
      | true =>
        right
        exact ⟨rfl, rfl⟩
      | false =>
        left
        simp only [registerFlow, hu, hp]
        split
        · rfl
        · rfl
    | false =>
      left
      simp only [registerFlow, hu]
      split
      · rfl
      · rfl
  · intro hu0 hp0 hc0
    have hemp : ¬(u = "" ∨ p = "" ∨ c = "") := by
      push_neg
      exact ⟨hu0, hp0, hc0⟩
    constructor
    · intro hfalse
      simp only at hfalse
      subst hfalse
      simp [registerFlow, if_neg hemp, hu]
    · intro htrue hfalse
      simp only at htrue
      simp only at hfalse
      subst htrue
      subst hfalse
      simp [registerFlow, if_neg hemp, hu, hp]

theorem registerFlow_check_order_witness :
    registerFlow 0 stEmpty "ab" "x" "x" false true
      = (RegisterOutcome.invalidPassword (validate_password "x").2, stEmpty) :=
  ((registerFlow_check_order 0 stEmpty "ab" "x" "x" false true).2
    (by decide) (by decide) (by decide)).2 (by decide) (by decide)

/-! ### C7 -/

def seedCount (db : DB) : Nat :=
  db.rows.countP (fun r => r.username == SEED_ADMIN_USERNAME)

theorem pyStrip_seed : pyStrip SEED_ADMIN_USERNAME = SEED_ADMIN_USERNAME := by decide

theorem seed_ne_empty : SEED_ADMIN_USERNAME ≠ "" := by decide

theorem update_preserves_username (username pw_hash role : String) (r : UserRow) :
    ((if r.username = username
        then { r with password_hash := pw_hash, role := role } else r) : UserRow).username
      = r.username := by
  split <;> rfl

theorem ensure_seed_admin_rows (salt : Nat) (st : AppState) :
    (seedCount st.db ≤ 1 → seedCount (ensure_seed_admin salt st).db = 1) ∧
    (∀ r ∈ (ensure_seed_admin salt st).db.rows, r.username = SEED_ADMIN_USERNAME →
      r.role = SEED_ADMIN_ROLE ∧
      r.password_hash = hash_password salt SEED_ADMIN_PASSWORD) := by
  rcases hlook : get_user_by_username st.db SEED_ADMIN_USERNAME with _ | row0
  · -- seed account absent: INSERT
    have hrows : ∀ r ∈ st.db.rows, (r.username == SEED_ADMIN_USERNAME) = false := by
      have := get_user_none_no_row st.db SEED_ADMIN_USERNAME
        (by rw [pyStrip_seed]; exact seed_ne_empty) hlook
      intro r hr
      have h2 := this r hr
      rwa [pyStrip_seed] at h2
    have hdb : (ensure_seed_admin salt st).db =
        ⟨st.db.rows ++
          [⟨st.db.nextId, SEED_ADMIN_USERNAME,
            hash_password salt SEED_ADMIN_PASSWORD, SEED_ADMIN_ROLE⟩],
          st.db.nextId + 1⟩ := by
      simp only [ensure_seed_admin, hlook]
    constructor
    · intro _
      rw [hdb]
      simp only [seedCount, List.countP_append]
      have h0 : st.db.rows.countP (fun r => r.username == SEED_ADMIN_USERNAME) = 0 := by
        rw [List.countP_eq_zero]
        intro r hr
        simp [hrows r hr]
      rw [h0]
      simp [List.countP_cons]
    · intro r hr hname
      rw [hdb] at hr
      simp only [List.mem_append, List.mem_singleton] at hr
      rcases hr with hr | hr
      · exfalso
        have := hrows r hr
        rw [hname] at this
        simp at this
      · rw [hr]
        exact ⟨rfl, rfl⟩
  · -- seed account present: UPDATE
    have hdb : (ensure_seed_admin salt st).db =
        updateUserRows st.db SEED_ADMIN_USERNAME
          (hash_password salt SEED_ADMIN_PASSWORD) SEED_ADMIN_ROLE := by
      simp only [ensure_seed_admin, hlook]
    constructor
    · intro hle
      have hpos : 0 < seedCount st.db := by
        unfold get_user_by_username at hlook
        rw [if_neg (by rw [pyStrip_seed]; exact seed_ne_empty)] at hlook
        rw [pyStrip_seed] at hlook
        have hmem := List.mem_of_find?_eq_some hlook
        have hpred := List.find?_some hlook
        rw [seedCount, List.countP_pos_iff]
        exact ⟨row0, hmem, hpred⟩
      have heq : seedCount (ensure_seed_admin salt st).db = seedCount st.db := by
        rw [hdb]
        simp only [seedCount, updateUserRows, List.countP_map]
        apply List.countP_congr
        intro r _
        simp only [Function.comp]
        rw [update_preserves_username]
      omega
    · intro r hr hname
      rw [hdb] at hr
      simp only [updateUserRows, List.mem_map] at hr
      obtain ⟨r0, _, hr0⟩ := hr
      by_cases hcase : r0.username = SEED_ADMIN_USERNAME
      · rw [← hr0]
        rw [if_pos hcase]
        exact ⟨rfl, rfl⟩
      · exfalso
        rw [← hr0, update_preserves_username] at hname
        exact hcase hname

/-- C7: for every nonempty sequence of bootstrap calls (each with its
own fresh salt) and every starting store with at most one seed record
(absent, wrong role, or different hash), iterating `ensure_seed_admin`
leaves exactly one record for the seed username, with role `admin` and a
stored hash that verifies against the fixed seed password. -/
theorem ensure_seed_admin_idempotent :
    ∀ salts st, salts ≠ [] → seedCount st.db ≤ 1 →
      seedCount (ensureSeedIter salts st).db = 1 ∧
      ∀ r ∈ (ensureSeedIter salts st).db.rows, r.username = SEED_ADMIN_USERNAME →
        r.role = SEED_ADMIN_ROLE ∧
        verify_password SEED_ADMIN_PASSWORD r.password_hash = true := by
  intro salts
  induction salts with
  | nil => exact fun st h => absurd rfl h
  | cons salt rest ih =>
    intro st _ hcount
    have h1 := ensure_seed_admin_rows salt st
    cases rest with
    | nil =>
      refine ⟨h1.1 hcount, ?_⟩
      intro r hr hname
      obtain ⟨hrole, hhash⟩ := h1.2 r hr hname
      refine ⟨hrole, ?_⟩
      rw [hhash]
      exact verify_hash_self _ _
    | cons s2 rest2 =>
      exact ih (ensure_seed_admin salt st) (by simp) (h1.1 hcount).le

theorem ensure_seed_admin_idempotent_witness :
    seedCount (ensureSeedIter [0] stEmpty).db = 1 :=
  (ensure_seed_admin_idempotent [0] stEmpty (by decide) (by decide)).1

/-! ### C8 -/

/-- The seed hash as read back from the store — the `row[2]` of the
post-write lookup in `ensure_seed_admin`. -/
def storedSeedHash (db : DB) : String :=
  match get_user_by_username db SEED_ADMIN_USERNAME with
  | some row => row.password_hash
  | none => ""

theorem seed_rows_none (st : AppState)
    (hlook : get_user_by_username st.db SEED_ADMIN_USERNAME = none) :
    ∀ r ∈ st.db.rows, (r.username == SEED_ADMIN_USERNAME) = false := by
  have h := get_user_none_no_row st.db SEED_ADMIN_USERNAME
    (by rw [pyStrip_seed]; exact seed_ne_empty) hlook
  intro r hr
  have h2 := h r hr
  rwa [pyStrip_seed] at h2

theorem get_user_update_seed (st : AppState) (pw_hash : String) (row0 : UserRow)
    (hlook : get_user_by_username st.db SEED_ADMIN_USERNAME = some row0) :
    get_user_by_username
        (updateUserRows st.db SEED_ADMIN_USERNAME pw_hash SEED_ADMIN_ROLE)
        SEED_ADMIN_USERNAME
      = some { row0 with password_hash := pw_hash, role := SEED_ADMIN_ROLE } := by
  have hfind : st.db.rows.find? (fun r => r.username == SEED_ADMIN_USERNAME)
      = some row0 := by
    unfold get_user_by_username at hlook
    rw [if_neg (by rw [pyStrip_seed]; exact seed_ne_empty)] at hlook
    rwa [pyStrip_seed] at hlook
  have hrow0 : row0.username = SEED_ADMIN_USERNAME := by
    have := List.find?_some hfind
    simpa using this
  simp only [get_user_by_username, updateUserRows, pyStrip_seed]
  rw [if_neg seed_ne_empty]
  rw [List.find?_map]
  have hfun : ((fun r : UserRow => r.username == SEED_ADMIN_USERNAME) ∘
      (fun r : UserRow =>
        if r.username = SEED_ADMIN_USERNAME
        then { r with password_hash := pw_hash, role := SEED_ADMIN_ROLE } else r))
      = (fun r : UserRow => r.username == SEED_ADMIN_USERNAME) := by
    funext r
    simp only [Function.comp]
    rw [update_preserves_username]
  rw [hfun, hfind]
  simp [hrow0]

/-- C8: `ensure_seed_admin` appends to the legacy mirror exactly when
the mirror lacks a line whose first comma-separated field is the seed
username, and the appended line carries the password hash read back from
the store after the insert/update step (`storedSeedHash` of the post
state); when the mirror already has such a line it is left unchanged. -/
theorem ensure_seed_mirror_append :
    ∀ salt st,
      (get_user_by_username (ensure_seed_admin salt st).db SEED_ADMIN_USERNAME).isSome
          = true ∧
      (userfile_has_username st.mirror SEED_ADMIN_USERNAME = true →
        (ensure_seed_admin salt st).mirror = st.mirror) ∧
      (userfile_has_username st.mirror SEED_ADMIN_USERNAME = false →
        (ensure_seed_admin salt st).mirror
          = st.mirror ++
            [seedMirrorLine (storedSeedHash (ensure_seed_admin salt st).db)]) := by
  intro salt st
  rcases hlook : get_user_by_username st.db SEED_ADMIN_USERNAME with _ | row0
  · have hrows := seed_rows_none st hlook
    have hdb : (ensure_seed_admin salt st).db =
        ⟨st.db.rows ++
          [⟨st.db.nextId, SEED_ADMIN_USERNAME,
            hash_password salt SEED_ADMIN_PASSWORD, SEED_ADMIN_ROLE⟩],
          st.db.nextId + 1⟩ := by
      simp only [ensure_seed_admin, hlook]
    have hsome : get_user_by_username (ensure_seed_admin salt st).db SEED_ADMIN_USERNAME
        = some ⟨st.db.nextId, SEED_ADMIN_USERNAME,
            hash_password salt SEED_ADMIN_PASSWORD, SEED_ADMIN_ROLE⟩ := by
      rw [hdb]
      simp only [get_user_by_username, pyStrip_seed]
      rw [if_neg seed_ne_empty]
      exact find?_new_row _ _ _ hrows rfl
    refine ⟨by rw [hsome]; rfl, ?_, ?_⟩
    · intro hhas
      simp only [ensure_seed_admin, hlook, hhas]
      rfl
    · intro hhasn
      have hstored : storedSeedHash (ensure_seed_admin salt st).db
          = hash_password salt SEED_ADMIN_PASSWORD := by
        unfold storedSeedHash
        rw [hsome]
      rw [hstored]
      simp only [ensure_seed_admin, hlook, hhasn]
      rw [hdb] at hsome
      simp only [hsome]
      rfl
  · have hdb : (ensure_seed_admin salt st).db =
        updateUserRows st.db SEED_ADMIN_USERNAME
          (hash_password salt SEED_ADMIN_PASSWORD) SEED_ADMIN_ROLE := by
      simp only [ensure_seed_admin, hlook]
    have hupd := get_user_update_seed st (hash_password salt SEED_ADMIN_PASSWORD)
      row0 hlook
    have hsome : get_user_by_username (ensure_seed_admin salt st).db SEED_ADMIN_USERNAME = some { row0 with password_hash := hash_password salt SEED_ADMIN_PASSWORD, role := SEED_ADMIN_ROLE } := by
      rw [hdb]
      exact hupd
    refine ⟨by rw [hsome]; rfl, ?_, ?_⟩
    · intro hhas
      simp only [ensure_seed_admin, hlook, hhas]
      rfl
    · intro hhasn
      have hstored : storedSeedHash (ensure_seed_admin salt st).db
          = hash_password salt SEED_ADMIN_PASSWORD := by
        unfold storedSeedHash
        rw [hsome]
      rw [hstored]
      simp only [ensure_seed_admin, hlook, hhasn]
      rw [hdb] at hsome
      rw [hsome]
      simp

theorem ensure_seed_mirror_append_witness :
    (ensure_seed_admin 0 stEmpty).mirror
      = stEmpty.mirror ++
        [seedMirrorLine (storedSeedHash (ensure_seed_admin 0 stEmpty).db)] :=
  (ensure_seed_mirror_append 0 stEmpty).2.2 (by decide)

/-! ### C9 -/

/-- C9 counterexample: on `"ab cd"` the code's validator reports the
spaces rule, while checking rules in the spec table's order (length,
charset, spaces) would report the charset rule — the code checks spaces
before the charset. -/
theorem validate_username_order_cex :
    validate_username "ab cd" = (false, "Username cannot contain spaces.") ∧
    validate_username_specOrder "ab cd"
      = (false, "Username can only contain letters, numbers, and underscore (_).") ∧
    validate_username "ab cd" ≠ validate_username_specOrder "ab cd" := by
  exact ⟨by decide, by decide, by decide⟩

def unameLenOK (s : String) : Bool := decide (2 ≤ (pyStrip s).length)

def unameNoSpace (s : String) : Bool := !((pyStrip s).data.contains ' ')

def unameCharsetOK (s : String) : Bool := fullmatchWord (pyStrip s).data

def pwLenOK (s : String) : Bool := decide (5 ≤ s.length)

def pwHasDigit (s : String) : Bool := s.data.any Char.isDigit

def pwHasLetter (s : String) : Bool := s.data.any Char.isAlpha

def pwHasSpecial (s : String) : Bool := s.data.any (fun ch => !ch.isAlphanum)

/-- C9 (amended): each validator reports exactly one violation — the
first violated rule in the order the code checks them (username: minimum
length, then spaces, then charset; password: minimum length, digit,
letter, special character) — and empty or whitespace-only input is
always rejected: an empty-stripping username with the length reason, a
whitespace-only password with one of the rule-naming reasons. -/
theorem validators_first_violation :
    (∀ s, pyStrip s = "" →
      validate_username s = (false, "Username must be at least 2 characters.")) ∧
    (∀ s, s.data.all Char.isWhitespace = true → (validate_password s).1 = false) ∧
    (∀ s msg, validate_username s = (false, msg) →
      (unameLenOK s = false ∧ msg = "Username must be at least 2 characters.") ∨
      (unameLenOK s = true ∧ unameNoSpace s = false ∧
        msg = "Username cannot contain spaces.") ∨
      (unameLenOK s = true ∧ unameNoSpace s = true ∧ unameCharsetOK s = false ∧
        msg = "Username can only contain letters, numbers, and underscore (_).")) ∧
    (∀ s msg, validate_password s = (false, msg) →
      (pwLenOK s = false ∧ msg = "Password must be at least 5 characters.") ∨
      (pwLenOK s = true ∧ pwHasDigit s = false ∧
        msg = "Password must contain at least 1 number.") ∨
      (pwLenOK s = true ∧ pwHasDigit s = true ∧ pwHasLetter s = false ∧
        msg = "Password must contain at least 1 letter.") ∨
      (pwLenOK s = true ∧ pwHasDigit s = true ∧ pwHasLetter s = true ∧
        pwHasSpecial s = false ∧
        msg = "Password must contain at least 1 special character (e.g., @, #, !).")) := by
  refine ⟨?_, ?_, ?_, ?_⟩
  · intro s h
    simp [validate_username, h]
  · intro s h
    have hnd : s.data.any Char.isDigit = false := by
      rw [List.any_eq_false]
      intro c hc
      have hw := (List.all_eq_true.mp h) c hc
      simp [whitespace_not_digit c hw]
    simp only [validate_password]
    split
    · rfl
    · rw [hnd]
      simp
  · intro s msg h
    by_cases h1 : (pyStrip s).length < 2
    · left
      have heval : validate_username s
          = (false, "Username must be at least 2 characters.") := by
        simp only [validate_username]
        rw [if_pos h1]
      rw [heval] at h
      simp only [Prod.mk.injEq, true_and] at h
      refine ⟨?_, h.symm⟩
      simp only [unameLenOK, decide_eq_false_iff_not]
      omega
    · have hlen : unameLenOK s = true := by
        simp only [unameLenOK, decide_eq_true_eq]
        omega
      by_cases h2 : (pyStrip s).data.contains ' ' = true
      · right
        left
        have heval : validate_username s = (false, "Username cannot contain spaces.") := by
          simp only [validate_username]
          rw [if_neg h1, if_pos h2]
        rw [heval] at h
        simp only [Prod.mk.injEq, true_and] at h
        refine ⟨hlen, ?_, h.symm⟩
        unfold unameNoSpace
        rw [h2]
        rfl
      · by_cases h3 : fullmatchWord (pyStrip s).data = true
        · exfalso
          have heval : validate_username s = (true, "OK") := by
            simp only [validate_username]
            rw [if_neg h1, if_neg h2, if_neg (by simp [h3])]
          rw [heval] at h
          simp at h
        · have h3f : fullmatchWord (pyStrip s).data = false := by
            simpa using h3
          right
          right
          have heval : validate_username s
              = (false,
                "Username can only contain letters, numbers, and underscore (_).") := by
            simp only [validate_username]
            rw [if_neg h1, if_neg h2, if_pos (by simp [h3f])]
          rw [heval] at h
          simp only [Prod.mk.injEq, true_and] at h
          refine ⟨hlen, ?_, h3f, h.symm⟩
          unfold unameNoSpace
          rw [show (pyStrip s).data.contains ' ' = false by simpa using h2]
          rfl
  · intro s msg h
    by_cases h1 : s.length < 5
    · left
      have heval : validate_password s
          = (false, "Password must be at least 5 characters.") := by
        simp only [validate_password]
        rw [if_pos h1]
      rw [heval] at h
      simp only [Prod.mk.injEq, true_and] at h
      refine ⟨?_, h.symm⟩
      simp only [pwLenOK, decide_eq_false_iff_not]
      omega
    · have hlen : pwLenOK s = true := by
        simp only [pwLenOK, decide_eq_true_eq]
        omega
      by_cases h2 : s.data.any Char.isDigit = true
      · by_cases h3 : s.data.any Char.isAlpha = true
        · by_cases h4 : s.data.any (fun ch => !ch.isAlphanum) = true
          · exfalso
            have heval : validate_password s = (true, "OK") := by
              simp only [validate_password]
              rw [if_neg h1, if_neg (by simp [h2]), if_neg (by simp [h3]),
                if_neg (by simp [h4])]
            rw [heval] at h
            simp at h
          · have h4f : s.data.any (fun ch => !ch.isAlphanum) = false := by
              simpa using h4
            right
            right
            right
            have heval : validate_password s
                = (false,
                  "Password must contain at least 1 special character (e.g., @, #, !).") := by
              simp only [validate_password]
              rw [if_neg h1, if_neg (by simp [h2]), if_neg (by simp [h3]),
                if_pos (by simp [h4f])]
            rw [heval] at h
            simp only [Prod.mk.injEq, true_and] at h
            exact ⟨hlen, h2, h3, h4f, h.symm⟩
        · have h3f : s.data.any Char.isAlpha = false := by
            simpa using h3
          right
          right
          left
          have heval : validate_password s
              = (false, "Password must contain at least 1 letter.") := by
            simp only [validate_password]
            rw [if_neg h1, if_neg (by simp [h2]), if_pos (by simp [h3f])]
          rw [heval] at h
          simp only [Prod.mk.injEq, true_and] at h
          exact ⟨hlen, h2, h3f, h.symm⟩
      · have h2f : s.data.any Char.isDigit = false := by
          simpa using h2
        right
        left
        have heval : validate_password s
            = (false, "Password must contain at least 1 number.") := by
          simp only [validate_password]
          rw [if_neg h1, if_pos (by simp [h2f])]
        rw [heval] at h
        simp only [Prod.mk.injEq, true_and] at h
        exact ⟨hlen, h2f, h.symm⟩

theorem validators_first_violation_witness :
    validate_username "  " = (false, "Username must be at least 2 characters.") :=
  validators_first_violation.1 "  " (by decide)

/-! ### C10 -/

/-- C10: the lookup, authentication and registration operations strip
the username before use, so each behaves identically on `u` and on the
stripped `u`; and registration preserves the invariant that every stored
username is strip-fixed (no leading or trailing whitespace). -/
theorem username_stripping :
    (∀ db u, get_user_by_username db u = get_user_by_username db (pyStrip u)) ∧
    (∀ st u p, authenticate_user st u p = authenticate_user st (pyStrip u) p) ∧
    (∀ salt st u p role,
      register_user salt st u p role = register_user salt st (pyStrip u) p role) ∧
    (∀ salt st u p role res, register_user salt st u p role = Except.ok res →
      st.db.rows.all (fun r => pyStrip r.username == r.username) = true →
      res.2.db.rows.all (fun r => pyStrip r.username == r.username) = true) := by
  refine ⟨?_, ?_, ?_, ?_⟩
  · intro db u
    exact (get_user_strip db u).symm
  · intro st u p
    simp only [authenticate_user, pyStrip_idempotent]
  · intro salt st u p role
    simp only [register_user, pyStrip_idempotent]
  · intro salt st u p role res h hall
    simp only [register_user] at h
    rcases hlook : get_user_by_username st.db (pyStrip u) with _ | row
    · simp only [hlook] at h
      rcases hins : sqliteInsertUser st.db (pyStrip u) (hash_password salt p)
          (normalizeRole role) with e | db2
      · rw [hins] at h
        exact absurd h (by simp)
      · rw [hins] at h
        injection h with h2
        rw [← h2]
        simp only [sqliteInsertUser] at hins
        split at hins
        · exact absurd hins (by simp)
        · injection hins with h3
          rw [← h3]
          simp only [List.all_append, hall, Bool.true_and]
          simp [pyStrip_idempotent]
    · simp only [hlook] at h
      injection h with h2
      rw [← h2]
      exact hall

/-- The state after registering `" alice "` (stored stripped) on a fresh
store. -/
def aliceRegged : AppState :=
  ⟨⟨[⟨1, "alice", hash_password 0 "Pass0!", "analyst"⟩], 2⟩,
    ["alice," ++ hash_password 0 "Pass0!" ++ ",analyst"]⟩

theorem username_stripping_witness :
    aliceRegged.db.rows.all (fun r => pyStrip r.username == r.username) = true ∧
    authenticate_user aliceRegged " alice " "Pass0!"
      = authenticate_user aliceRegged (pyStrip " alice ") "Pass0!" :=
  ⟨username_stripping.2.2.2 0 stEmpty " alice " "Pass0!" "analyst" (true, aliceRegged)
      (by rfl) (by decide),
    username_stripping.2.1 aliceRegged " alice " "Pass0!"⟩

end CSW2
